import Mathlib

/-
Verification of the toy address/object balance executor.

The embedding mirrors the Rust source: balances are pairs of unsigned
64-bit integers (modelled as Nat), deltas are pairs of signed 64-bit
integers (modelled as Int, with the u64-to-i64 casts made explicit),
and every operation that can panic (the non-negativity assertion in
apply_delta, or an i64 overflow in its additions, which panics in a
debug build) is modelled as returning none.
-/

set_option autoImplicit false

namespace ToyBalances

/-- Reduce an integer into the value range of a signed 64-bit word
(two's complement wrap-around). -/
def i64wrap (x : Int) : Int := (x + 2 ^ 63) % 2 ^ 64 - 2 ^ 63

/-- The Rust cast of an unsigned 64-bit value to i64 (bit-preserving,
so values of 2^63 and above come out negative). -/
def u64AsI64 (n : Nat) : Int := i64wrap n

inductive TransactionTarget where
  | address
  | object
deriving DecidableEq, Repr

inductive TransactionKind where
  | userDeposit (amount : Nat)
  | userWithdraw (amount : Nat)
  | curse (amount : Nat)
  | clawback (amount : Nat)
deriving DecidableEq, Repr

structure Transaction where
  kind : TransactionKind
  target : TransactionTarget
deriving DecidableEq, Repr

structure BalanceDelta where
  db : Int
  dc : Int
deriving DecidableEq, Repr

/-- A pair (balance, cursed) of unsigned 64-bit quantities. -/
structure Balance where
  bal : Nat
  cursed : Nat
deriving DecidableEq, Repr

structure Effects where
  address_delta : BalanceDelta
  object_delta : BalanceDelta
deriving DecidableEq, Repr

structure State where
  address_state : Balance
  object_state : Balance
deriving DecidableEq, Repr

structure Executor where
  scheduled_transactions : List Transaction
  state : State
deriving DecidableEq, Repr

def Effects.default : Effects := ⟨⟨0, 0⟩, ⟨0, 0⟩⟩

def Transaction.is_clawback (t : Transaction) : Bool :=
  match t.kind with
  | .clawback _ => true
  | _ => false

/-- Transaction::into_delta.  The source casts the u64 amount to i64
(`amount as i64`, a wrapping cast) and negates it for withdraws and
clawbacks; the negation is taken in two's complement as well. -/
def Transaction.into_delta (t : Transaction) : BalanceDelta :=
  match t.kind with
  | .userDeposit amount => ⟨u64AsI64 amount, 0⟩
  | .userWithdraw amount => ⟨i64wrap (-(u64AsI64 amount)), 0⟩
  | .curse amount => ⟨0, u64AsI64 amount⟩
  | .clawback amount => ⟨i64wrap (-(u64AsI64 amount)), i64wrap (-(u64AsI64 amount))⟩

def Transaction.address_deposit (amount : Nat) : Transaction :=
  ⟨.userDeposit amount, .address⟩

def Transaction.object_deposit (amount : Nat) : Transaction :=
  ⟨.userDeposit amount, .object⟩

def Transaction.address_withdraw (amount : Nat) : Transaction :=
  ⟨.userWithdraw amount, .address⟩

def Transaction.object_withdraw (amount : Nat) : Transaction :=
  ⟨.userWithdraw amount, .object⟩

def Transaction.address_curse (amount : Nat) : Transaction :=
  ⟨.curse amount, .address⟩

def Transaction.object_curse (amount : Nat) : Transaction :=
  ⟨.curse amount, .object⟩

def Transaction.address_clawback (amount : Nat) : Transaction :=
  ⟨.clawback amount, .address⟩

def Transaction.object_clawback (amount : Nat) : Transaction :=
  ⟨.clawback amount, .object⟩

/-- Balance::apply_delta.  The source casts both fields to i64, adds the
delta components, asserts both results are non-negative, and casts back.
The assertion failure, as well as an i64 overflow in either addition
(a panic in a debug build), is modelled as none. -/
def Balance.apply_delta (s : Balance) (delta : BalanceDelta) : Option Balance :=
  let b := u64AsI64 s.bal + delta.db
  let c := u64AsI64 s.cursed + delta.dc
  if -(2 ^ 63) ≤ b ∧ b < 2 ^ 63 ∧ -(2 ^ 63) ≤ c ∧ c < 2 ^ 63 then
    if 0 ≤ b ∧ 0 ≤ c then some ⟨b.toNat, c.toNat⟩ else none
  else none

/-- Balance::check_limit.  Nat subtraction is the source's saturating
subtraction. -/
def Balance.check_limit (s : Balance) (t : Transaction) : Bool :=
  match t.kind with
  | .userDeposit _ => true
  | .curse _ => true
  | .userWithdraw amount => decide (amount ≤ s.bal - s.cursed)
  | .clawback amount => decide (amount ≤ min s.bal s.cursed)

/-- State::apply: apply the transaction's delta to the balance named by
its target, and record that delta on the matching side of the Effects. -/
def State.apply (s : State) (t : Transaction) : Option (Effects × State) :=
  let d := t.into_delta
  match t.target with
  | .address =>
    (s.address_state.apply_delta d).map fun a =>
      (⟨d, ⟨0, 0⟩⟩, ⟨a, s.object_state⟩)
  | .object =>
    (s.object_state.apply_delta d).map fun o =>
      (⟨⟨0, 0⟩, d⟩, ⟨s.address_state, o⟩)

/-- The Effects State::apply records for a transaction when it is applied. -/
def Transaction.full_effects (t : Transaction) : Effects :=
  match t.target with
  | .address => ⟨t.into_delta, ⟨0, 0⟩⟩
  | .object => ⟨⟨0, 0⟩, t.into_delta⟩

/-- The balance of a State selected by a transaction target (the inner
match of the clawback arm of Executor::schedule). -/
def State.balanceOf (s : State) : TransactionTarget → Balance
  | .address => s.address_state
  | .object => s.object_state

/-- Executor::schedule.  Returns the Result (as a Bool, true = Ok) paired
with the executor after the call; a rejected transaction leaves the
executor unchanged. -/
def Executor.schedule (ex : Executor) (tx : Transaction) : Bool × Executor :=
  match tx.target, tx.is_clawback with
  | .address, _ =>
    if ex.state.address_state.check_limit tx then
      (true, { ex with scheduled_transactions := ex.scheduled_transactions ++ [tx] })
    else
      (false, ex)
  | .object, false =>
    (true, { ex with scheduled_transactions := ex.scheduled_transactions ++ [tx] })
  | .object, true =>
    if ex.state.object_state.check_limit tx then
      (true, { ex with scheduled_transactions := ex.scheduled_transactions ++ [tx] })
    else
      (false, ex)

/-- The body of the map in Executor::settle for one transaction:
address transactions and object clawbacks apply unconditionally to the
evolving next state; other object transactions are checked against the
committed snapshot and clear to zero when the check fails. -/
def Executor.settleStep (committed next : State) (tx : Transaction) :
    Option (Effects × State) :=
  match tx.target, tx.is_clawback with
  | .address, _ => next.apply tx
  | .object, true => next.apply tx
  | .object, false =>
    if committed.object_state.check_limit tx then next.apply tx
    else some (Effects.default, next)

/-- The settlement loop over the drained queue, threading the evolving
next state; a panic anywhere aborts the whole call. -/
def Executor.settleGo (committed : State) :
    State → List Transaction → Option (List (Transaction × Effects) × State)
  | next, [] => some ([], next)
  | next, tx :: rest =>
    (Executor.settleStep committed next tx).bind fun p =>
      (Executor.settleGo committed p.2 rest).map fun q =>
        ((tx, p.1) :: q.1, q.2)

/-- Executor::settle: drain the queue, settle each transaction in
scheduling order, and commit the evolved state. -/
def Executor.settle (ex : Executor) :
    Option (List (Transaction × Effects) × Executor) :=
  (Executor.settleGo ex.state ex.state ex.scheduled_transactions).map fun q =>
    (q.1, ⟨[], q.2⟩)

/-- Replay a list of transactions through State::apply, keeping only the
resulting state (used to state settlement atomicity). -/
def State.applyAll (s : State) : List Transaction → Option State
  | [] => some s
  | tx :: rest => (s.apply tx).bind fun p => p.2.applyAll rest

/-- Both fields fit in an unsigned 64-bit word. -/
def Balance.wf64 (b : Balance) : Prop := b.bal < 2 ^ 64 ∧ b.cursed < 2 ^ 64

def State.wf64 (s : State) : Prop := s.address_state.wf64 ∧ s.object_state.wf64

instance (b : Balance) : Decidable b.wf64 := by unfold Balance.wf64; infer_instance

instance (s : State) : Decidable s.wf64 := by unfold State.wf64; infer_instance

/-! ### Arithmetic facts about the 64-bit casts -/

theorem i64wrap_eq_self {x : Int} (h0 : -(2 ^ 63) ≤ x) (h1 : x < 2 ^ 63) :
    i64wrap x = x := by
  have e63 : ((2 : Int) ^ 63) = 9223372036854775808 := by norm_num
  have e64 : ((2 : Int) ^ 64) = 18446744073709551616 := by norm_num
  unfold i64wrap
  rw [e63, e64] at *
  omega

theorem u64AsI64_eq_self {n : Nat} (h : n < 2 ^ 63) : u64AsI64 n = n := by
  have hn : (0 : Int) ≤ n := Int.natCast_nonneg n
  have hlt : (n : Int) < 2 ^ 63 := by exact_mod_cast h
  exact i64wrap_eq_self (le_trans (by norm_num) hn) hlt

theorem u64AsI64_sub_of_large {n : Nat} (h1 : 2 ^ 63 ≤ n) (h2 : n < 2 ^ 64) :
    u64AsI64 n = (n : Int) - 2 ^ 64 := by
  have e63 : ((2 : Int) ^ 63) = 9223372036854775808 := by norm_num
  have e64 : ((2 : Int) ^ 64) = 18446744073709551616 := by norm_num
  have h1i : (9223372036854775808 : Int) ≤ (n : Int) := by exact_mod_cast h1
  have h2i : (n : Int) < 18446744073709551616 := by exact_mod_cast h2
  unfold u64AsI64 i64wrap
  rw [e63, e64]
  omega

theorem u64AsI64_nonneg_eq {n : Nat} (hn : n < 2 ^ 64)
    (h : 0 ≤ u64AsI64 n) : u64AsI64 n = n := by
  rcases lt_or_le n (2 ^ 63) with hs | hl
  · exact u64AsI64_eq_self hs
  · exfalso
    rw [u64AsI64_sub_of_large hl hn] at h
    have : (n : Int) < 18446744073709551616 := by exact_mod_cast hn
    have e64 : ((2 : Int) ^ 64) = 18446744073709551616 := by norm_num
    omega

/-! ### Characterising delta application -/

theorem apply_delta_some_iff {s : Balance} {d : BalanceDelta} {s' : Balance} :
    s.apply_delta d = some s' ↔
      (0 ≤ u64AsI64 s.bal + d.db ∧ u64AsI64 s.bal + d.db < 2 ^ 63 ∧
       0 ≤ u64AsI64 s.cursed + d.dc ∧ u64AsI64 s.cursed + d.dc < 2 ^ 63) ∧
      s' = ⟨(u64AsI64 s.bal + d.db).toNat, (u64AsI64 s.cursed + d.dc).toNat⟩ := by
  unfold Balance.apply_delta
  dsimp only
  split_ifs with h1 h2
  · constructor
    · intro h
      exact ⟨⟨h2.1, h1.2.1, h2.2, h1.2.2.2⟩, (Option.some_inj.mp h).symm⟩
    · intro h
      rw [h.2]
  · constructor
    · intro h; cases h
    · intro h; exact absurd ⟨h.1.1, h.1.2.2.1⟩ h2
  · constructor
    · intro h; cases h
    · intro h
      refine absurd ⟨?_, h.1.2.1, ?_, h.1.2.2.2⟩ h1
      · have := h.1.1; omega
      · have := h.1.2.2.1; omega

theorem apply_delta_bounds {s s' : Balance} {d : BalanceDelta}
    (h : s.apply_delta d = some s') : s'.bal < 2 ^ 63 ∧ s'.cursed < 2 ^ 63 := by
  obtain ⟨⟨_, hb, _, hc⟩, rfl⟩ := apply_delta_some_iff.mp h
  constructor <;> simp only [Int.toNat_lt'] <;> omega

theorem apply_delta_zero_delta {s s' : Balance}
    (hb : s.bal < 2 ^ 64) (hc : s.cursed < 2 ^ 64)
    (h : s.apply_delta ⟨0, 0⟩ = some s') : s' = s := by
  obtain ⟨⟨hb0, _, hc0, _⟩, rfl⟩ := apply_delta_some_iff.mp h
  simp only [add_zero] at *
  rw [u64AsI64_nonneg_eq hb hb0, u64AsI64_nonneg_eq hc hc0]
  simp

theorem apply_delta_exact {s s' : Balance} {d : BalanceDelta}
    (hb : s.bal < 2 ^ 63) (hc : s.cursed < 2 ^ 63)
    (h : s.apply_delta d = some s') :
    (s'.bal : Int) = s.bal + d.db ∧ (s'.cursed : Int) = s.cursed + d.dc := by
  obtain ⟨⟨hb0, _, hc0, _⟩, rfl⟩ := apply_delta_some_iff.mp h
  rw [u64AsI64_eq_self hb] at hb0 ⊢
  rw [u64AsI64_eq_self hc] at hc0 ⊢
  constructor <;> simp [Int.toNat_of_nonneg, hb0, hc0]

/-! ### Small amounts are represented exactly by into_delta -/

theorem into_delta_deposit_small {a : Nat} (tgt : TransactionTarget) (h : a < 2 ^ 63) :
    (Transaction.mk (.userDeposit a) tgt).into_delta = ⟨(a : Int), 0⟩ := by
  unfold Transaction.into_delta
  dsimp only
  rw [u64AsI64_eq_self h]

theorem into_delta_withdraw_small {a : Nat} (tgt : TransactionTarget) (h : a < 2 ^ 63) :
    (Transaction.mk (.userWithdraw a) tgt).into_delta = ⟨-(a : Int), 0⟩ := by
  unfold Transaction.into_delta
  dsimp only
  have ha : (a : Int) < 2 ^ 63 := by exact_mod_cast h
  have hn : (0 : Int) ≤ a := Int.natCast_nonneg a
  have h63 : (0 : Int) < 2 ^ 63 := by norm_num
  rw [u64AsI64_eq_self h, i64wrap_eq_self (by omega) (by omega)]

theorem into_delta_curse_small {a : Nat} (tgt : TransactionTarget) (h : a < 2 ^ 63) :
    (Transaction.mk (.curse a) tgt).into_delta = ⟨0, (a : Int)⟩ := by
  unfold Transaction.into_delta
  dsimp only
  rw [u64AsI64_eq_self h]

theorem into_delta_clawback_small {a : Nat} (tgt : TransactionTarget) (h : a < 2 ^ 63) :
    (Transaction.mk (.clawback a) tgt).into_delta = ⟨-(a : Int), -(a : Int)⟩ := by
  unfold Transaction.into_delta
  dsimp only
  have ha : (a : Int) < 2 ^ 63 := by exact_mod_cast h
  have hn : (0 : Int) ≤ a := Int.natCast_nonneg a
  have h63 : (0 : Int) < 2 ^ 63 := by norm_num
  rw [u64AsI64_eq_self h, i64wrap_eq_self (by omega) (by omega)]

/-! ### Characterising State.apply -/

theorem State.apply_cases {s : State} {t : Transaction} {eff : Effects} {s' : State}
    (h : s.apply t = some (eff, s')) :
    eff = t.full_effects ∧
      ((t.target = .address ∧
          ∃ a, s.address_state.apply_delta t.into_delta = some a ∧
            s' = ⟨a, s.object_state⟩) ∨
       (t.target = .object ∧
          ∃ o, s.object_state.apply_delta t.into_delta = some o ∧
            s' = ⟨s.address_state, o⟩)) := by
  rcases t with ⟨k, tgt⟩
  cases tgt
  · simp only [State.apply, Option.map_eq_some'] at h
    obtain ⟨a, ha, heq⟩ := h
    injection heq with h1 h2
    subst h1
    subst h2
    exact ⟨rfl, Or.inl ⟨rfl, a, ha, rfl⟩⟩
  · simp only [State.apply, Option.map_eq_some'] at h
    obtain ⟨o, ho, heq⟩ := h
    injection heq with h1 h2
    subst h1
    subst h2
    exact ⟨rfl, Or.inr ⟨rfl, o, ho, rfl⟩⟩

theorem State.apply_wf {s : State} {t : Transaction} {eff : Effects} {s' : State}
    (hs : s.wf64) (h : s.apply t = some (eff, s')) : s'.wf64 := by
  obtain ⟨-, hcase | hcase⟩ := State.apply_cases h
  · obtain ⟨-, a, ha, rfl⟩ := hcase
    obtain ⟨h1, h2⟩ := apply_delta_bounds ha
    refine ⟨⟨?_, ?_⟩, hs.2⟩
    · show a.bal < 2 ^ 64
      omega
    · show a.cursed < 2 ^ 64
      omega
  · obtain ⟨-, o, ho, rfl⟩ := hcase
    obtain ⟨h1, h2⟩ := apply_delta_bounds ho
    refine ⟨hs.1, ?_, ?_⟩
    · show o.bal < 2 ^ 64
      omega
    · show o.cursed < 2 ^ 64
      omega

theorem full_effects_default {t : Transaction}
    (h : t.full_effects = Effects.default) : t.into_delta = ⟨0, 0⟩ := by
  rcases t with ⟨k, tgt⟩
  cases tgt <;>
    simpa [Transaction.full_effects, Effects.default, Effects.mk.injEq] using h

theorem State.apply_zero {s : State} {t : Transaction} {eff : Effects} {s' : State}
    (hs : s.wf64) (hd : t.into_delta = ⟨0, 0⟩)
    (h : s.apply t = some (eff, s')) : s' = s := by
  obtain ⟨-, hcase | hcase⟩ := State.apply_cases h
  · obtain ⟨-, a, ha, rfl⟩ := hcase
    rw [hd] at ha
    rw [apply_delta_zero_delta hs.1.1 hs.1.2 ha]
  · obtain ⟨-, o, ho, rfl⟩ := hcase
    rw [hd] at ho
    rw [apply_delta_zero_delta hs.2.1 hs.2.2 ho]

/-! ### Characterising the settlement loop -/

theorem settleGo_nil {committed next : State} :
    Executor.settleGo committed next [] = some ([], next) := rfl

theorem settleGo_cons {committed next : State} {tx : Transaction}
    {rest : List Transaction} {out : List (Transaction × Effects)} {final : State}
    (h : Executor.settleGo committed next (tx :: rest) = some (out, final)) :
    ∃ eff next1 out1,
      Executor.settleStep committed next tx = some (eff, next1) ∧
      Executor.settleGo committed next1 rest = some (out1, final) ∧
      out = (tx, eff) :: out1 := by
  simp only [Executor.settleGo, Option.bind_eq_some, Option.map_eq_some'] at h
  obtain ⟨⟨eff, next1⟩, hstep, ⟨out1, final1⟩, hgo, heq⟩ := h
  injection heq with h1 h2
  subst h2
  exact ⟨eff, next1, out1, hstep, hgo, h1.symm⟩

theorem settleStep_cases {committed next : State} {tx : Transaction}
    {eff : Effects} {next1 : State}
    (h : Executor.settleStep committed next tx = some (eff, next1)) :
    (next.apply tx = some (eff, next1) ∧
       (tx.target = .address ∨ tx.is_clawback = true ∨
        committed.object_state.check_limit tx = true)) ∨
    (tx.target = .object ∧ tx.is_clawback = false ∧
       committed.object_state.check_limit tx = false ∧
       eff = Effects.default ∧ next1 = next) := by
  rcases tx with ⟨k, tgt⟩
  cases tgt
  · cases k <;> exact Or.inl ⟨h, Or.inl rfl⟩
  · cases k
    case clawback a => exact Or.inl ⟨h, Or.inr (Or.inl rfl)⟩
    all_goals
      dsimp only [Executor.settleStep, Transaction.is_clawback] at h
    all_goals
      split at h
    case isTrue hc =>
      exact Or.inl ⟨h, Or.inr (Or.inr hc)⟩
    case isTrue hc =>
      exact Or.inl ⟨h, Or.inr (Or.inr hc)⟩
    case isTrue hc =>
      exact Or.inl ⟨h, Or.inr (Or.inr hc)⟩
    all_goals
      rename_i hc
    all_goals
      injection h with hp
    all_goals
      injection hp with h1 h2
    all_goals
      simp only [Bool.not_eq_true] at hc
    all_goals
      exact Or.inr ⟨rfl, rfl, hc, h1.symm, h2.symm⟩

theorem settleGo_applyAll {committed : State} (txs : List Transaction) :
    ∀ (next : State) (out : List (Transaction × Effects)) (final : State),
      next.wf64 →
      Executor.settleGo committed next txs = some (out, final) →
      out.map Prod.fst = txs ∧
      State.applyAll next
          ((out.filter fun p => p.2 != Effects.default).map Prod.fst) = some final := by
  induction txs with
  | nil =>
    intro next out final _ h
    rw [settleGo_nil] at h
    injection h with hp
    injection hp with h1 h2
    subst h2
    rw [h1.symm]
    exact ⟨rfl, rfl⟩
  | cons tx rest ih =>
    intro st out final hwf h
    obtain ⟨eff, next1, out1, hstep, hgo, rfl⟩ := settleGo_cons h
    rcases settleStep_cases hstep with ⟨happly, -⟩ | ⟨-, -, -, hdef, hnext⟩
    · have hwf1 : next1.wf64 := State.apply_wf hwf happly
      obtain ⟨ih1, ih2⟩ := ih next1 out1 final hwf1 hgo
      have heff : eff = tx.full_effects := (State.apply_cases happly).1
      refine ⟨by rw [List.map_cons, ih1], ?_⟩
      by_cases hd : eff = Effects.default
      · have hzero : tx.into_delta = ⟨0, 0⟩ := full_effects_default (hd ▸ heff.symm)
        have : next1 = st := State.apply_zero hwf hzero happly
        subst this
        simpa [List.filter_cons, hd] using ih2
      · rw [List.filter_cons]
        have hne : ((tx, eff).2 != Effects.default) = true := by
          simpa [bne_iff_ne] using hd
        rw [if_pos hne, List.map_cons]
        show (st.apply tx).bind _ = some final
        rw [happly]
        exact ih2
    · subst hnext
      obtain ⟨ih1, ih2⟩ := ih next1 out1 final hwf hgo
      refine ⟨by rw [List.map_cons, ih1], ?_⟩
      rw [List.filter_cons]
      have hne : ((tx, eff).2 != Effects.default) = false := by
        simp [hdef]
      rw [if_neg (by simp [hne])]
      exact ih2

theorem settleGo_object_check {committed : State} (txs : List Transaction) :
    ∀ (next : State) (out : List (Transaction × Effects)) (final : State),
      Executor.settleGo committed next txs = some (out, final) →
      ∀ tx eff, (tx, eff) ∈ out → tx.target = .object → tx.is_clawback = false →
        eff = if committed.object_state.check_limit tx = true
              then tx.full_effects else Effects.default := by
  induction txs with
  | nil =>
    intro next out final h tx eff hmem _ _
    rw [settleGo_nil] at h
    injection h with hp
    injection hp with h1 h2
    rw [h1.symm] at hmem
    cases hmem
  | cons tx0 rest ih =>
    intro next out final h tx eff hmem htgt hcb
    obtain ⟨eff0, next1, out1, hstep, hgo, rfl⟩ := settleGo_cons h
    rcases List.mem_cons.mp hmem with hhd | htl
    · injection hhd with h1 h2
      subst h1
      subst h2
      rcases settleStep_cases hstep with ⟨happly, hor⟩ | ⟨-, -, hchk, hdef, -⟩
      · have heff : eff = tx.full_effects := (State.apply_cases happly).1
        rcases hor with h | h | h
        · rw [htgt] at h
          cases h
        · rw [hcb] at h
          cases h
        · rw [if_pos h]
          exact heff
      · rw [if_neg (by simp [hchk])]
        exact hdef
    · exact ih next1 out1 final hgo tx eff htl htgt hcb

theorem settleGo_effects_shape {committed : State} (txs : List Transaction) :
    ∀ (next : State) (out : List (Transaction × Effects)) (final : State),
      Executor.settleGo committed next txs = some (out, final) →
      ∀ p, p ∈ out → p.2 = p.1.full_effects ∨ p.2 = Effects.default := by
  induction txs with
  | nil =>
    intro next out final h p hmem
    rw [settleGo_nil] at h
    injection h with hp
    injection hp with h1 h2
    rw [h1.symm] at hmem
    cases hmem
  | cons tx0 rest ih =>
    intro next out final h p hmem
    obtain ⟨eff0, next1, out1, hstep, hgo, rfl⟩ := settleGo_cons h
    rcases List.mem_cons.mp hmem with hhd | htl
    · subst hhd
      rcases settleStep_cases hstep with ⟨happly, -⟩ | ⟨-, -, -, hdef, -⟩
      · exact Or.inl (State.apply_cases happly).1
      · exact Or.inr hdef
    · exact ih next1 out1 final hgo p htl

theorem settle_eq_some {ex : Executor} {out : List (Transaction × Effects)}
    {ex' : Executor} (h : ex.settle = some (out, ex')) :
    ∃ final, Executor.settleGo ex.state ex.state ex.scheduled_transactions
        = some (out, final) ∧ ex' = ⟨[], final⟩ := by
  simp only [Executor.settle, Option.map_eq_some'] at h
  obtain ⟨⟨out0, final⟩, hgo, heq⟩ := h
  injection heq with h1 h2
  subst h1
  exact ⟨final, hgo, h2.symm⟩

theorem settle_of_empty_queue {ex : Executor}
    (h : ex.scheduled_transactions = []) : ex.settle = some ([], ex) := by
  rcases ex with ⟨txs, st⟩
  simp only at h
  subst h
  rfl

/-! ### Reachable states have small fields -/

/-- Both fields are below 2^63; apply_delta can only produce such balances,
so every state reachable from the default executor satisfies this. -/
def Balance.small (b : Balance) : Prop := b.bal < 2 ^ 63 ∧ b.cursed < 2 ^ 63

def State.small (s : State) : Prop := s.address_state.small ∧ s.object_state.small

theorem State.apply_small {s : State} {t : Transaction} {eff : Effects} {s' : State}
    (hs : s.small) (h : s.apply t = some (eff, s')) : s'.small := by
  obtain ⟨-, hcase | hcase⟩ := State.apply_cases h
  · obtain ⟨-, a, ha, rfl⟩ := hcase
    exact ⟨apply_delta_bounds ha, hs.2⟩
  · obtain ⟨-, o, ho, rfl⟩ := hcase
    exact ⟨hs.1, apply_delta_bounds ho⟩

theorem settleGo_small {committed : State} (txs : List Transaction) :
    ∀ (st : State) (out : List (Transaction × Effects)) (final : State),
      st.small → Executor.settleGo committed st txs = some (out, final) →
      final.small := by
  induction txs with
  | nil =>
    intro st out final hsm h
    rw [settleGo_nil] at h
    injection h with hp
    injection hp with h1 h2
    exact h2 ▸ hsm
  | cons tx rest ih =>
    intro st out final hsm h
    obtain ⟨eff, next1, out1, hstep, hgo, rfl⟩ := settleGo_cons h
    rcases settleStep_cases hstep with ⟨happly, -⟩ | ⟨-, -, -, -, hnext⟩
    · exact ih next1 out1 final (State.apply_small hsm happly) hgo
    · exact ih next1 out1 final (hnext ▸ hsm) hgo

/-- Both operations preserve smallness of the committed state, and the
default state is small, so the hypotheses of the settlement part of the
object-optimism claim hold in every reachable executor. -/
theorem reachable_state_small :
    (State.mk ⟨0, 0⟩ ⟨0, 0⟩).small ∧
    (∀ (ex : Executor) (tx : Transaction),
        ex.state.small → ((ex.schedule tx).2).state.small) ∧
    (∀ (ex ex' : Executor) (out : List (Transaction × Effects)),
        ex.state.small → ex.settle = some (out, ex') → ex'.state.small) := by
  refine ⟨⟨⟨?_, ?_⟩, ?_, ?_⟩, ?_, ?_⟩
  · norm_num
  · norm_num
  · norm_num
  · norm_num
  · intro ex tx hsm
    rcases tx with ⟨k, tgt⟩
    have h : ((ex.schedule ⟨k, tgt⟩).2).state = ex.state := by
      cases tgt <;> cases k <;>
        (unfold Executor.schedule; dsimp only [Transaction.is_clawback]) <;>
        first
          | rfl
          | (split_ifs <;> rfl)
    rw [h]
    exact hsm
  · intro ex ex' out hsm h
    obtain ⟨final, hgo, rfl⟩ := settle_eq_some h
    exact settleGo_small _ _ _ _ hsm hgo

/-! ### The claims -/

/-- Claim C1 (refuted by the code, contradicting its own comments): from the
default executor, schedule and settle an address deposit of 100, then schedule
an address withdraw of 100 twice; both withdraws are admitted (each is checked
against the committed balance (100, 0) only), yet settling the batch drives the
address balance to -100 on the second withdraw, firing the fatal assertion in
apply_delta (modelled as none). -/
theorem settle_assert_reachable :
    Executor.schedule ⟨[], ⟨⟨0, 0⟩, ⟨0, 0⟩⟩⟩ (Transaction.address_deposit 100) =
      (true, ⟨[Transaction.address_deposit 100], ⟨⟨0, 0⟩, ⟨0, 0⟩⟩⟩) ∧
    Executor.settle ⟨[Transaction.address_deposit 100], ⟨⟨0, 0⟩, ⟨0, 0⟩⟩⟩ =
      some ([(Transaction.address_deposit 100, ⟨⟨100, 0⟩, ⟨0, 0⟩⟩)],
            ⟨[], ⟨⟨100, 0⟩, ⟨0, 0⟩⟩⟩) ∧
    Executor.schedule ⟨[], ⟨⟨100, 0⟩, ⟨0, 0⟩⟩⟩ (Transaction.address_withdraw 100) =
      (true, ⟨[Transaction.address_withdraw 100], ⟨⟨100, 0⟩, ⟨0, 0⟩⟩⟩) ∧
    Executor.schedule ⟨[Transaction.address_withdraw 100], ⟨⟨100, 0⟩, ⟨0, 0⟩⟩⟩
        (Transaction.address_withdraw 100) =
      (true, ⟨[Transaction.address_withdraw 100, Transaction.address_withdraw 100],
              ⟨⟨100, 0⟩, ⟨0, 0⟩⟩⟩) ∧
    Executor.settle ⟨[Transaction.address_withdraw 100, Transaction.address_withdraw 100],
        ⟨⟨100, 0⟩, ⟨0, 0⟩⟩⟩ = none := by
  decide

/-- Claim C2: after a successful settle the pending queue is empty, the output
has one pair per drained transaction in scheduling order, and the committed
state is the pre-call state with exactly the deltas of the applied
(non-cleared) transactions added in scheduling order. -/
theorem settle_atomicity (ex : Executor) (out : List (Transaction × Effects))
    (ex' : Executor) (hwf : ex.state.wf64) (h : ex.settle = some (out, ex')) :
    ex'.scheduled_transactions = [] ∧
    out.map Prod.fst = ex.scheduled_transactions ∧
    State.applyAll ex.state
        ((out.filter fun p => p.2 != Effects.default).map Prod.fst) = some ex'.state := by
  obtain ⟨final, hgo, rfl⟩ := settle_eq_some h
  obtain ⟨h1, h2⟩ := settleGo_applyAll _ _ _ _ hwf hgo
  exact ⟨rfl, h1, h2⟩

theorem settle_atomicity_witness :
    (Executor.mk [] ⟨⟨100, 0⟩, ⟨0, 0⟩⟩).scheduled_transactions = [] ∧
    ([(Transaction.address_deposit 100, Effects.mk ⟨100, 0⟩ ⟨0, 0⟩)].map Prod.fst) =
      (Executor.mk [Transaction.address_deposit 100]
          ⟨⟨0, 0⟩, ⟨0, 0⟩⟩).scheduled_transactions ∧
    State.applyAll (Executor.mk [Transaction.address_deposit 100]
          ⟨⟨0, 0⟩, ⟨0, 0⟩⟩).state
        (([(Transaction.address_deposit 100, Effects.mk ⟨100, 0⟩ ⟨0, 0⟩)].filter
            fun p => p.2 != Effects.default).map Prod.fst) =
      some (Executor.mk [] ⟨⟨100, 0⟩, ⟨0, 0⟩⟩).state :=
  settle_atomicity ⟨[Transaction.address_deposit 100], ⟨⟨0, 0⟩, ⟨0, 0⟩⟩⟩
    [(Transaction.address_deposit 100, Effects.mk ⟨100, 0⟩ ⟨0, 0⟩)]
    ⟨[], ⟨⟨100, 0⟩, ⟨0, 0⟩⟩⟩ (by decide) (by decide)

/-- Claim C3: scheduling an address withdraw succeeds exactly when the amount
is at most balance minus cursed (saturating at 0) of the committed address
balance. -/
theorem schedule_address_withdraw_iff (ex : Executor) (a : Nat) :
    (ex.schedule (Transaction.address_withdraw a)).1 = true ↔
      a ≤ ex.state.address_state.bal - ex.state.address_state.cursed := by
  unfold Executor.schedule Transaction.address_withdraw
  dsimp only [Transaction.is_clawback, Balance.check_limit]
  by_cases h : a ≤ ex.state.address_state.bal - ex.state.address_state.cursed
  · simp [h]
  · simp [h]

/-- Claim C4: scheduling a clawback (either target) succeeds exactly when the
amount is at most min(balance, cursed) of that target's committed balance;
the object target is checked at schedule time as well. -/
theorem schedule_clawback_iff (ex : Executor) (a : Nat) (tgt : TransactionTarget) :
    (ex.schedule ⟨.clawback a, tgt⟩).1 = true ↔
      a ≤ min (ex.state.balanceOf tgt).bal (ex.state.balanceOf tgt).cursed := by
  cases tgt
  all_goals
    unfold Executor.schedule
  all_goals
    dsimp only [Transaction.is_clawback, Balance.check_limit, State.balanceOf]
  · by_cases h : a ≤ min ex.state.address_state.bal ex.state.address_state.cursed
    · simp [h]
    · simp [h]
  · by_cases h : a ≤ min ex.state.object_state.bal ex.state.object_state.cursed
    · simp [h]
    · simp [h]

/-- Claim C5: every object-target non-clawback transaction settled in a batch
is limit-checked against the committed state as of the start of the settle
call only; concretely, from object balance (100, 50), settling the batch
[object Withdraw 60, object Withdraw 50] clears the first to zero and fully
applies the second, leaving object balance (50, 50). -/
theorem settle_object_snapshot :
    (∀ (ex : Executor) (out : List (Transaction × Effects)) (ex' : Executor),
        ex.settle = some (out, ex') →
        ∀ tx eff, (tx, eff) ∈ out → tx.target = .object → tx.is_clawback = false →
          eff = if ex.state.object_state.check_limit tx = true
                then tx.full_effects else Effects.default) ∧
    Executor.settle ⟨[Transaction.object_withdraw 60, Transaction.object_withdraw 50],
        ⟨⟨0, 0⟩, ⟨100, 50⟩⟩⟩ =
      some ([(Transaction.object_withdraw 60, Effects.default),
             (Transaction.object_withdraw 50, ⟨⟨0, 0⟩, ⟨-50, 0⟩⟩)],
            ⟨[], ⟨⟨0, 0⟩, ⟨50, 50⟩⟩⟩) := by
  constructor
  · intro ex out ex' h tx eff hmem htgt hcb
    obtain ⟨final, hgo, -⟩ := settle_eq_some h
    exact settleGo_object_check _ _ _ _ hgo tx eff hmem htgt hcb
  · decide

theorem settle_object_snapshot_witness :
    Effects.default =
      if (State.mk ⟨0, 0⟩ ⟨100, 50⟩).object_state.check_limit
          (Transaction.object_withdraw 60) = true
      then (Transaction.object_withdraw 60).full_effects else Effects.default :=
  settle_object_snapshot.1
    ⟨[Transaction.object_withdraw 60, Transaction.object_withdraw 50],
      ⟨⟨0, 0⟩, ⟨100, 50⟩⟩⟩
    [(Transaction.object_withdraw 60, Effects.default),
     (Transaction.object_withdraw 50, ⟨⟨0, 0⟩, ⟨-50, 0⟩⟩)]
    ⟨[], ⟨⟨0, 0⟩, ⟨50, 50⟩⟩⟩ settle_object_snapshot.2
    (Transaction.object_withdraw 60) Effects.default (by decide) rfl rfl

/-- Claim C6: scheduling an object withdraw always succeeds, and its
settlement step either clears to zero (zero delta, state untouched) or fully
applies (object balance decreases by exactly the amount), never partially.
The bounds on the two states hold for every state the program can reach,
since apply_delta only ever produces fields below 2^63. -/
theorem object_withdraw_optimism :
    (∀ (ex : Executor) (a : Nat),
        (ex.schedule (Transaction.object_withdraw a)).1 = true) ∧
    (∀ (committed st : State) (a : Nat) (eff : Effects) (st' : State),
        committed.object_state.bal < 2 ^ 63 →
        st.object_state.bal < 2 ^ 63 →
        st.object_state.cursed < 2 ^ 63 →
        Executor.settleStep committed st (Transaction.object_withdraw a) =
          some (eff, st') →
        (eff = Effects.default ∧ st' = st) ∨
        (eff = ⟨⟨0, 0⟩, ⟨-(a : Int), 0⟩⟩ ∧ a ≤ st.object_state.bal ∧
          st' = ⟨st.address_state,
                 ⟨st.object_state.bal - a, st.object_state.cursed⟩⟩)) := by
  constructor
  · intro ex a
    rfl
  · intro committed st a eff st' hcbal hsb hsc hstep
    rcases settleStep_cases hstep with ⟨happly, hor⟩ | ⟨-, -, -, hdef, hnext⟩
    · have hchk : committed.object_state.check_limit (Transaction.object_withdraw a)
          = true := by
        rcases hor with h | h | h
        · simp [Transaction.object_withdraw] at h
        · simp [Transaction.object_withdraw, Transaction.is_clawback] at h
        · exact h
      have ha : a ≤ committed.object_state.bal - committed.object_state.cursed := by
        simpa [Transaction.object_withdraw, Balance.check_limit] using hchk
      have ha63 : a < 2 ^ 63 := by omega
      have hd : (Transaction.object_withdraw a).into_delta = ⟨-(a : Int), 0⟩ :=
        into_delta_withdraw_small _ ha63
      obtain ⟨heff, hcase | hcase⟩ := State.apply_cases happly
      · obtain ⟨htgt, -⟩ := hcase
        simp [Transaction.object_withdraw] at htgt
      · obtain ⟨-, o, ho, rfl⟩ := hcase
        rw [hd] at ho
        obtain ⟨he1, he2⟩ := apply_delta_exact hsb hsc ho
        right
        have hfe : (Transaction.object_withdraw a).full_effects =
            ⟨⟨0, 0⟩, ⟨-(a : Int), 0⟩⟩ := by
          unfold Transaction.full_effects
          rw [hd]
          rfl
        dsimp only at he1 he2
        refine ⟨by rw [heff, hfe], by omega, ?_⟩
        have hob : o.bal = st.object_state.bal - a := by omega
        have hoc : o.cursed = st.object_state.cursed := by omega
        rcases o with ⟨ob, oc⟩
        dsimp only at hob hoc
        rw [hob, hoc]
    · exact Or.inl ⟨hdef, hnext⟩

theorem object_withdraw_optimism_witness :
    ((Executor.mk [] ⟨⟨0, 0⟩, ⟨0, 0⟩⟩).schedule (Transaction.object_withdraw 5)).1
      = true ∧
    ((Effects.mk ⟨0, 0⟩ ⟨-30, 0⟩ = Effects.default ∧
        State.mk ⟨0, 0⟩ ⟨70, 0⟩ = State.mk ⟨0, 0⟩ ⟨100, 0⟩) ∨
     (Effects.mk ⟨0, 0⟩ ⟨-30, 0⟩ = ⟨⟨0, 0⟩, ⟨-((30 : Nat) : Int), 0⟩⟩ ∧
        (30 : Nat) ≤ (State.mk ⟨0, 0⟩ ⟨100, 0⟩).object_state.bal ∧
        State.mk ⟨0, 0⟩ ⟨70, 0⟩ =
          ⟨(State.mk ⟨0, 0⟩ ⟨100, 0⟩).address_state,
           ⟨(State.mk ⟨0, 0⟩ ⟨100, 0⟩).object_state.bal - 30,
            (State.mk ⟨0, 0⟩ ⟨100, 0⟩).object_state.cursed⟩⟩)) :=
  ⟨object_withdraw_optimism.1 ⟨[], ⟨⟨0, 0⟩, ⟨0, 0⟩⟩⟩ 5,
   object_withdraw_optimism.2 (State.mk ⟨0, 0⟩ ⟨100, 0⟩) (State.mk ⟨0, 0⟩ ⟨100, 0⟩)
     30 (Effects.mk ⟨0, 0⟩ ⟨-30, 0⟩) (State.mk ⟨0, 0⟩ ⟨70, 0⟩)
     (by decide) (by decide) (by decide) (by decide)⟩

/-- Claim C7 (as stated, refuted): an object withdraw of 1 against an empty
object balance settles by clearing to zero, so the produced Effects has both
deltas zero, not exactly one non-zero. -/
theorem settle_cleared_effects_all_zero :
    Executor.settle ⟨[Transaction.object_withdraw 1], ⟨⟨0, 0⟩, ⟨0, 0⟩⟩⟩ =
      some ([(Transaction.object_withdraw 1, Effects.default)],
            ⟨[], ⟨⟨0, 0⟩, ⟨0, 0⟩⟩⟩) ∧
    ¬(Effects.default.address_delta ≠ ⟨0, 0⟩ ∨
      Effects.default.object_delta ≠ ⟨0, 0⟩) := by
  decide

/-- Claim C7 (amended): in every (Transaction, Effects) pair produced by
settle, the delta not matching the transaction's target is the zero delta, so
at most one delta is non-zero and a non-zero delta is the target's; the
target-side delta too is zero when the transaction cleared to zero (or its
derived delta is itself zero). -/
theorem settle_effects_off_target_zero :
    ∀ (ex : Executor) (out : List (Transaction × Effects)) (ex' : Executor),
      ex.settle = some (out, ex') →
      ∀ tx eff, (tx, eff) ∈ out →
        (tx.target = .address → eff.object_delta = ⟨0, 0⟩) ∧
        (tx.target = .object → eff.address_delta = ⟨0, 0⟩) := by
  intro ex out ex' h tx eff hmem
  obtain ⟨final, hgo, -⟩ := settle_eq_some h
  rcases settleGo_effects_shape _ _ _ _ hgo (tx, eff) hmem with hsh | hsh
  · dsimp only at hsh
    rcases tx with ⟨k, tgt⟩
    cases tgt
    · refine ⟨fun _ => ?_, fun h' => nomatch h'⟩
      rw [hsh]
      rfl
    · refine ⟨fun h' => (nomatch h'), fun _ => ?_⟩
      rw [hsh]
      rfl
  · dsimp only at hsh
    rw [hsh]
    exact ⟨fun _ => rfl, fun _ => rfl⟩

theorem settle_effects_off_target_zero_witness :
    ((Transaction.object_withdraw 1).target = .address →
        Effects.default.object_delta = ⟨0, 0⟩) ∧
    ((Transaction.object_withdraw 1).target = .object →
        Effects.default.address_delta = ⟨0, 0⟩) :=
  settle_effects_off_target_zero
    ⟨[Transaction.object_withdraw 1], ⟨⟨0, 0⟩, ⟨0, 0⟩⟩⟩
    [(Transaction.object_withdraw 1, Effects.default)]
    ⟨[], ⟨⟨0, 0⟩, ⟨0, 0⟩⟩⟩ (by decide)
    (Transaction.object_withdraw 1) Effects.default (by decide)

/-- Claim C8 (as stated, refuted): the amount 2^63 is expressible in the
unsigned 64-bit amount type, yet into_delta of Deposit(2^63) is (-2^63, 0),
not (+2^63, 0), because the cast of the u64 amount to i64 wraps. -/
theorem into_delta_wraps_at_two_pow_63 :
    (2 : Nat) ^ 63 < 2 ^ 64 ∧
    (Transaction.address_deposit (2 ^ 63)).into_delta ≠ ⟨((2 : Int) ^ 63), 0⟩ ∧
    (Transaction.address_deposit (2 ^ 63)).into_delta = ⟨-((2 : Int) ^ 63), 0⟩ := by
  decide

/-- Claim C8 (amended): for every amount below 2^63 (the amounts the i64 cast
represents exactly) and either target, into_delta is exactly
Deposit(a) to (+a, 0), Withdraw(a) to (-a, 0), Curse(a) to (0, +a),
Clawback(a) to (-a, -a). -/
theorem into_delta_spec_small (a : Nat) (tgt : TransactionTarget) (h : a < 2 ^ 63) :
    (Transaction.mk (.userDeposit a) tgt).into_delta = ⟨(a : Int), 0⟩ ∧
    (Transaction.mk (.userWithdraw a) tgt).into_delta = ⟨-(a : Int), 0⟩ ∧
    (Transaction.mk (.curse a) tgt).into_delta = ⟨0, (a : Int)⟩ ∧
    (Transaction.mk (.clawback a) tgt).into_delta = ⟨-(a : Int), -(a : Int)⟩ :=
  ⟨into_delta_deposit_small tgt h, into_delta_withdraw_small tgt h,
   into_delta_curse_small tgt h, into_delta_clawback_small tgt h⟩

theorem into_delta_spec_small_witness :
    (Transaction.mk (.userDeposit 7) .address).into_delta = ⟨(7 : Int), 0⟩ ∧
    (Transaction.mk (.userWithdraw 7) .address).into_delta = ⟨-(7 : Int), 0⟩ ∧
    (Transaction.mk (.curse 7) .address).into_delta = ⟨0, (7 : Int)⟩ ∧
    (Transaction.mk (.clawback 7) .address).into_delta = ⟨-(7 : Int), -(7 : Int)⟩ :=
  into_delta_spec_small 7 .address (by decide)

/-- Claim C9: schedule never changes the committed State, whether the
transaction is admitted or rejected. -/
theorem schedule_preserves_state (ex : Executor) (tx : Transaction) :
    (ex.schedule tx).2.state = ex.state := by
  rcases tx with ⟨k, tgt⟩
  cases tgt <;> cases k <;>
    (unfold Executor.schedule; dsimp only [Transaction.is_clawback]) <;>
    first
      | rfl
      | (split_ifs <;> rfl)

/-- Claim C10: settling with an empty pending queue returns the empty
sequence and the executor unchanged; hence a settle immediately following a
settle returns the empty sequence and preserves the state the first produced. -/
theorem settle_empty_and_idempotent :
    (∀ ex : Executor, ex.scheduled_transactions = [] → ex.settle = some ([], ex)) ∧
    (∀ (ex ex' : Executor) (out : List (Transaction × Effects)),
        ex.settle = some (out, ex') → ex'.settle = some ([], ex')) := by
  constructor
  · exact fun ex h => settle_of_empty_queue h
  · intro ex ex' out h
    obtain ⟨final, -, rfl⟩ := settle_eq_some h
    exact settle_of_empty_queue rfl

theorem settle_empty_and_idempotent_witness :
    Executor.settle ⟨[], ⟨⟨0, 0⟩, ⟨0, 0⟩⟩⟩ =
      some ([], ⟨[], ⟨⟨0, 0⟩, ⟨0, 0⟩⟩⟩) :=
  settle_empty_and_idempotent.1 ⟨[], ⟨⟨0, 0⟩, ⟨0, 0⟩⟩⟩ rfl

end ToyBalances
